import Mathlib

/-!
Verification of the Omi-to-WebDAV sync service (src/sync.py) against its
natural-language specification.

The Python module is shallowly embedded below.  Conventions:
* Python dicts used as id-keyed mappings become association lists
  (`alGet` / `alSet` / `alErase` reproduce dict lookup, in-place update with
  append-at-end for fresh keys, and `del`).
* The WebDAV server becomes a `Dav` value: a path-to-bytes mapping, a set of
  directories, and a trace of the mutating operations (write / move / remove)
  issued so far, each tagged with whether it succeeded.  Failures of the
  remote store are modelled by a `Faults` oracle saying which calls raise.
* `requests`-level fetching is out of scope (the spec treats the Source as an
  external collaborator); `run_sync_cycle` therefore takes the fetch result
  as a parameter: `none` models `fetch_conversations` returning `None`.
* Logging, signal handling (`running` is always true) and state-file
  persistence are not modelled; they are I/O plumbing outside every claim.
* The xxhash64 digest of the canonical JSON serialization is modelled by a
  deterministic injective-style serialization of the same two content fields
  (`structured`, `transcript_segments`); every claim depends only on
  fingerprint equality, never on the digest format.
-/

namespace OmiSync

/-! ## Association-list model of Python dicts -/

/-- Python dict lookup `d.get(k)`: first (only) binding of the key. -/
def alGet {α : Type} (l : List (String × α)) (k : String) : Option α :=
  match l with
  | [] => none
  | (k1, v) :: rest => if k1 = k then some v else alGet rest k

/-- Python dict assignment `d[k] = v`: replace the existing binding in place,
else append the new binding at the end (dict insertion order). -/
def alSet {α : Type} (l : List (String × α)) (k : String) (v : α) :
    List (String × α) :=
  match l with
  | [] => [(k, v)]
  | (k1, v1) :: rest =>
    if k1 = k then (k, v) :: rest else (k1, v1) :: alSet rest k v

/-- Python dict deletion `del d[k]`. -/
def alErase {α : Type} (l : List (String × α)) (k : String) :
    List (String × α) :=
  l.filter (fun kv => kv.1 ≠ k)

/-! ## Data model -/

/-- One transcript segment (`speaker_id`, `text`), as read by the code. -/
structure Segment where
  speaker_id : Nat
  text : String
deriving DecidableEq, Repr

/-- The `structured` sub-dict of a conversation.  `title` is `none` when the
key is absent (the code reads it with `structured.get("title", "Untitled")`);
`extra` carries the remaining arbitrary fields, which take part in content
hashing only. -/
structure Structured where
  title : Option String
  category : String
  overview : String
  extra : List (String × String)
deriving DecidableEq, Repr

/-- A conversation record fetched from the Omi API. -/
structure Conversation where
  id : String
  created_at : String
  structured : Structured
  transcript_segments : List Segment
deriving DecidableEq, Repr

/-- `structured.get("title", "Untitled")`. -/
def currentTitle (s : Structured) : String := s.title.getD "Untitled"

/-- One value of the per-conversation state dict:
`{omi_hash, filename, title}`. -/
structure StateEntry where
  omi_hash : String
  filename : String
  title : String
deriving DecidableEq, Repr

/-- The sync state: `{"version": 1, "last_sync": ..., "conversations": {...}}`.
The constant `version` field is dropped. -/
structure SyncState where
  last_sync : Option String
  conversations : List (String × StateEntry)
deriving DecidableEq, Repr

def setEntry (st : SyncState) (id : String) (e : StateEntry) : SyncState :=
  { st with conversations := alSet st.conversations id e }

def eraseEntry (st : SyncState) (id : String) : SyncState :=
  { st with conversations := alErase st.conversations id }

/-! ## ContentHasher (`compute_content_hash`, lines 110-121) -/

/-- Canonicalization: insertion sort of the arbitrary `structured` fields by
key, modelling `json.dumps(..., sort_keys=True)`. -/
def insertSorted (kv : String × String) :
    List (String × String) → List (String × String)
  | [] => [kv]
  | x :: xs => if kv.1 ≤ x.1 then kv :: x :: xs else x :: insertSorted kv xs

def sortByKey (l : List (String × String)) : List (String × String) :=
  l.foldr insertSorted []

def serializeKVs (l : List (String × String)) : String :=
  String.intercalate "," (l.map (fun kv => kv.1 ++ "=" ++ kv.2))

def serializeStructured (s : Structured) : String :=
  "(category=" ++ s.category ++ ";overview=" ++ s.overview ++ ";title=" ++
    (match s.title with
     | some t => "+" ++ t
     | none => "-") ++
    ";extra=" ++ serializeKVs (sortByKey s.extra) ++ ")"

def serializeSegments (l : List Segment) : String :=
  String.intercalate ";" (l.map (fun s => toString s.speaker_id ++ ":" ++ s.text))

/-- `compute_content_hash`: digest of exactly the two content-relevant fields
(`structured`, `transcript_segments`), discarding id, title-outside-structured
and timestamps.  The xxhash64/hex-truncation step is modelled by the canonical
serialization itself (see module comment). -/
def compute_content_hash (c : Conversation) : String :=
  "x64:" ++ serializeStructured c.structured ++ "|" ++
    serializeSegments c.transcript_segments

/-! ## FilenameAllocator (`sanitize_title`, `generate_filename`, 124-167) -/

/-- Python `str.strip()`. -/
def pyStrip (s : String) : String :=
  String.mk (((s.data.dropWhile Char.isWhitespace).reverse.dropWhile
    Char.isWhitespace).reverse)

/-- Characters replaced by `pathvalidate.sanitize_filename` (modelled:
the usual cross-platform-unsafe set plus control characters). -/
def invalidFilenameChar (ch : Char) : Bool :=
  (['/', '\\', ':', '*', '?', '"', '<', '>', '|'].contains ch) || ch.toNat < 32

/-- Modelled from the external library `pathvalidate.sanitize_filename`
(replacement_text "-", max_len 200): unsafe characters replaced by a dash,
length capped at 200. -/
def sanitize_filename (s : String) : String :=
  String.mk ((s.data.map
    (fun ch => if invalidFilenameChar ch then '-' else ch)).take 200)

/-- Fixpoint of the Python loop replacing two consecutive spaces by one:
every maximal run of spaces collapses to a single space. -/
def collapseSpaces : List Char → List Char
  | [] => []
  | c :: rest =>
    match c, collapseSpaces rest with
    | ' ', ' ' :: tail => ' ' :: tail
    | c1, tail => c1 :: tail

/-- `sanitize_title` (lines 124-146).  Unicode NFC normalization is modelled
as the identity. -/
def sanitize_title (title : String) : String :=
  if pyStrip title = "" then "Untitled"
  else
    let normalized := pyStrip title
    let sanitized := sanitize_filename normalized
    let collapsed := String.mk (collapseSpaces sanitized.data)
    let stripped := pyStrip collapsed
    if stripped = "" then "Untitled" else stripped

/-- Modelled `datetime.fromisoformat` + `strftime("%m%d%Y")`: a string whose
first ten characters read `YYYY-MM-DD` with a plausible month and day yields
the suffix `MMDDYYYY`; anything else is unparseable (`none`). -/
def parseDateSuffix (created_at : String) : Option String :=
  match created_at.data with
  | y1 :: y2 :: y3 :: y4 :: '-' :: m1 :: m2 :: '-' :: d1 :: d2 :: _ =>
    if ([y1, y2, y3, y4, m1, m2, d1, d2].all Char.isDigit) then
      let month := (m1.toNat - 48) * 10 + (m2.toNat - 48)
      let day := (d1.toNat - 48) * 10 + (d2.toNat - 48)
      if 1 ≤ month ∧ month ≤ 12 ∧ 1 ≤ day ∧ day ≤ 31 then
        some (String.mk [m1, m2, d1, d2, y1, y2, y3, y4])
      else none
    else none
  | _ => none

/-- The set of filenames in use across all state entries (line 155). -/
def existingFilenames (state : SyncState) : List String :=
  state.conversations.map (fun kv => kv.2.filename)

/-- `generate_filename` (lines 149-167).  `nowSuffix` is the `MMDDYYYY`
rendering of `datetime.now`, the fallback for unparseable timestamps. -/
def generate_filename (nowSuffix : String) (title created_at : String)
    (state : SyncState) : String :=
  let base_name := sanitize_title title
  let filename := base_name ++ ".md"
  if ((existingFilenames state).contains filename) = false then filename
  else
    let date_suffix := (parseDateSuffix created_at).getD nowSuffix
    base_name ++ "_" ++ date_suffix ++ ".md"

/-! ## DocumentRenderer (`generate_markdown`, lines 170-211) -/

/-- A frontmatter post: ordered metadata dict plus Markdown body. -/
structure Post where
  metadata : List (String × String)
  body : String
deriving DecidableEq, Repr

/-- File contents on the WebDAV server: either a well-formed frontmatter
document, or raw bytes on which `frontmatter.loads` (or utf-8 decoding)
raises. -/
inductive Bytes where
  | doc (p : Post)
  | raw (s : String)
deriving DecidableEq, Repr

/-- `frontmatter.loads`. -/
def fmLoads : Bytes → Except Unit Post
  | .doc p => .ok p
  | .raw _ => .error ()

/-- `frontmatter.dumps`. -/
def fmDumps (p : Post) : Bytes := .doc p

/-- The body built by `generate_markdown` (lines 185-205). -/
def buildBody (c : Conversation) : String :=
  let overview := pyStrip c.structured.overview
  let summary := ["## Summary", "",
    if overview = "" then "No summary available." else overview]
  let parts :=
    if c.transcript_segments.isEmpty then summary
    else
      summary ++ ["", "## Transcript", ""] ++
        (c.transcript_segments.filterMap (fun seg =>
          let text := pyStrip seg.text
          if text = "" then none
          else some ("**Speaker " ++ toString seg.speaker_id ++ ":** " ++ text)))
  String.intercalate "\n" parts

/-- `generate_markdown` (lines 170-211): front matter (three user-visible
keys, three reserved underscore-namespaced keys) plus the rendered body.
`syncedAt` is the `datetime.now` ISO timestamp. -/
def generate_markdown (syncedAt : String) (c : Conversation)
    (content_hash : String) : Post :=
  { metadata := [
      ("title", currentTitle c.structured),
      ("date", c.created_at),
      ("category", c.structured.category),
      ("_omi_id", c.id),
      ("_content_hash", content_hash),
      ("_synced_at", syncedAt)],
    body := buildBody c }

/-! ## The WebDAV Store -/

/-- One mutating store operation as issued by the engine, tagged with whether
the call succeeded (a failed call is one that raised in Python). -/
inductive StoreOp where
  | write (path : String) (ok : Bool)
  | move (src dst : String) (ok : Bool)
  | remove (path : String) (ok : Bool)
deriving DecidableEq, Repr

/-- Fault oracle for the external collaborators: which store calls raise.
`clientInitFails` models `WebDAVClient(...)` raising in `run_sync_cycle`. -/
structure Faults where
  clientInitFails : Bool
  existsFails : String → Bool
  readFails : String → Bool
  writeFails : String → Bool
  moveFails : String → String → Bool
  removeFails : String → Bool
  mkdirFails : String → Bool

/-- The fault-free oracle. -/
def noFaults : Faults :=
  { clientInitFails := false
    existsFails := fun _ => false
    readFails := fun _ => false
    writeFails := fun _ => false
    moveFails := fun _ _ => false
    removeFails := fun _ => false
    mkdirFails := fun _ => false }

/-- WebDAV server state: files, directories, and the ordered trace of
mutating operations issued so far. -/
structure Dav where
  files : List (String × Bytes)
  dirs : List String
  trace : List StoreOp
deriving DecidableEq, Repr

/-- `webdav.exists(p)` (may raise). -/
def Dav.existsQ (f : Faults) (d : Dav) (p : String) : Except Unit Bool :=
  if f.existsFails p then .error ()
  else .ok ((alGet d.files p).isSome || d.dirs.contains p)

/-- `webdav.read_bytes(p)` (raises on fault or missing file). -/
def Dav.readBytes (f : Faults) (d : Dav) (p : String) : Except Unit Bytes :=
  if f.readFails p then .error ()
  else
    match alGet d.files p with
    | some b => .ok b
    | none => .error ()

/-- `webdav.upload_fileobj(..., p, overwrite=True)`.  Returns whether the
call succeeded together with the new server state (the trace records the
issued call either way). -/
def Dav.upload (f : Faults) (d : Dav) (p : String) (b : Bytes) : Bool × Dav :=
  if f.writeFails p then
    (false, { d with trace := d.trace ++ [.write p false] })
  else
    (true, { d with files := alSet d.files p b,
                    trace := d.trace ++ [.write p true] })

/-- `webdav.move(src, dst, overwrite=True)` (raises on fault or missing
source). -/
def Dav.move (f : Faults) (d : Dav) (src dst : String) : Bool × Dav :=
  if f.moveFails src dst then
    (false, { d with trace := d.trace ++ [.move src dst false] })
  else
    match alGet d.files src with
    | none => (false, { d with trace := d.trace ++ [.move src dst false] })
    | some b =>
      (true, { d with files := alSet (alErase d.files src) dst b,
                      trace := d.trace ++ [.move src dst true] })

/-- `webdav.remove(p)`. -/
def Dav.removeF (f : Faults) (d : Dav) (p : String) : Bool × Dav :=
  if f.removeFails p then
    (false, { d with trace := d.trace ++ [.remove p false] })
  else
    (true, { d with files := alErase d.files p,
                    trace := d.trace ++ [.remove p true] })

/-- Environment of a cycle: the fault oracle plus the ambient quantities the
code reads from the clock and configuration (`datetime.now` as an `MMDDYYYY`
suffix and as an ISO timestamp, and `OUTPUT_DIR`). -/
structure Env where
  faults : Faults
  nowSuffix : String
  syncedAt : String
  outputDir : String

/-! ## ChangeClassifier (lines 286-302) -/

/-- Line 297: `title_changed = stored_title and stored_title != current_title`
(with `stored_title = conv_state.get("title", "")`). -/
def titleChangedOf (c : Conversation) (e : StateEntry) : Bool :=
  decide (e.title ≠ "" ∧ e.title ≠ currentTitle c.structured)

/-- Line 298: `content_changed = stored_hash != content_hash`. -/
def contentChangedOf (c : Conversation) (e : StateEntry) : Bool :=
  decide (e.omi_hash ≠ compute_content_hash c)

/-- The four-way classification the spec's ChangeClassifier contract assigns
to the boolean pair computed at lines 286-302. -/
inductive Classification where
  | New
  | Unchanged
  | TitleOnly
  | ContentChanged
deriving DecidableEq, Repr

def classify (c : Conversation) (e : Option StateEntry) : Classification :=
  match e with
  | none => .New
  | some e1 =>
    if contentChangedOf c e1 = true then .ContentChanged
    else if titleChangedOf c e1 = true then .TitleOnly
    else .Unchanged

/-! ## `sync_conversation` (lines 268-408) -/

/-- The filename determination of lines 304-325: an existing non-empty stored
filename is kept unless the title changed, in which case a fresh name is
allocated against the state with the record's own entry removed
(`temp_state`); otherwise a fresh name is allocated against the full state. -/
def syncTargetFilename (env : Env) (c : Conversation) (st : SyncState) :
    String :=
  match alGet st.conversations c.id with
  | some cs =>
    if cs.filename ≠ "" then
      if titleChangedOf c cs = true then
        generate_filename env.nowSuffix (currentTitle c.structured)
          c.created_at (eraseEntry st c.id)
      else cs.filename
    else
      generate_filename env.nowSuffix (currentTitle c.structured)
        c.created_at st
  | none =>
    generate_filename env.nowSuffix (currentTitle c.structured) c.created_at st

/-- `old_filename` as set at line 308: only a title change with a non-empty
stored filename records the old name for a rename. -/
def syncOldFilename (c : Conversation) (st : SyncState) : Option String :=
  match alGet st.conversations c.id with
  | some cs =>
    if cs.filename ≠ "" then
      if titleChangedOf c cs = true then some cs.filename else none
    else none
  | none => none

/-- The metadata-preservation block of lines 356-375: if the file at
`metadata_source_path` exists and parses, copy every non-underscore key not
already present into the freshly generated front matter; existence/read
failures and parse failures are non-fatal (logged as warnings) and leave the
document unmerged. -/
def mergeMetadata (existing new : List (String × String)) :
    List (String × String) :=
  existing.foldl
    (fun acc kv =>
      if (kv.1.data.head? ≠ some '_') ∧ alGet acc kv.1 = none
      then acc ++ [kv] else acc)
    new

def preserveUserMetadata (f : Faults) (dav : Dav) (msp : String) (md : Post) :
    Post :=
  match Dav.existsQ f dav msp with
  | .error _ => md
  | .ok false => md
  | .ok true =>
    match Dav.readBytes f dav msp with
    | .error _ => md
    | .ok bytes =>
      match fmLoads bytes with
      | .error _ => md
      | .ok existingPost =>
        { metadata := mergeMetadata existingPost.metadata md.metadata,
          body := md.body }

/-- Result of `sync_conversation`: the returned boolean plus the (in Python,
mutated in place) state and server. -/
structure SyncResult where
  ok : Bool
  state : SyncState
  dav : Dav
deriving Repr

/-- The common tail of `sync_conversation` from line 327 on, after the
booleans, the target filename and the optional old filename are fixed. -/
def syncTail (env : Env) (c : Conversation) (st : SyncState) (dav : Dav)
    (content_hash filename : String) (old_filename : Option String)
    (title_changed content_changed : Bool) : SyncResult :=
  let remote_path := env.outputDir ++ "/" ++ filename
  let newEntry : StateEntry :=
    { omi_hash := content_hash, filename := filename,
      title := currentTitle c.structured }
  if title_changed = true ∧ content_changed = false ∧ old_filename.isSome then
    -- Lines 329-351: title-only change, handled with a byte-preserving move.
    let old_remote := env.outputDir ++ "/" ++ old_filename.getD ""
    match Dav.existsQ env.faults dav old_remote with
    | .error _ => { ok := false, state := st, dav := dav }
    | .ok true =>
      match Dav.move env.faults dav old_remote remote_path with
      | (false, dav1) => { ok := false, state := st, dav := dav1 }
      | (true, dav1) =>
        { ok := true, state := setEntry st c.id newEntry, dav := dav1 }
    | .ok false =>
      -- "Old file not found for rename": warn, still update state, succeed.
      { ok := true, state := setEntry st c.id newEntry, dav := dav }
  else
    -- Lines 353-408: regenerate, merging preserved metadata, then upload.
    let md := generate_markdown env.syncedAt c content_hash
    let msp :=
      match old_filename with
      | some ofn => env.outputDir ++ "/" ++ ofn
      | none => remote_path
    let md2 := preserveUserMetadata env.faults dav msp md
    match Dav.upload env.faults dav remote_path (fmDumps md2) with
    | (false, dav1) => { ok := false, state := st, dav := dav1 }
    | (true, dav1) =>
      let dav2 :=
        match old_filename with
        | some ofn =>
          if ofn ≠ filename then
            let old_remote := env.outputDir ++ "/" ++ ofn
            match Dav.existsQ env.faults dav1 old_remote with
            | .error _ => dav1
            | .ok false => dav1
            | .ok true => (Dav.removeF env.faults dav1 old_remote).2
          else dav1
        | none => dav1
      { ok := true, state := setEntry st c.id newEntry, dav := dav2 }

/-- `sync_conversation` (lines 268-408). -/
def sync_conversation (env : Env) (c : Conversation) (st : SyncState)
    (dav : Dav) : SyncResult :=
  if c.id = "" then { ok := false, state := st, dav := dav }
  else
    let content_hash := compute_content_hash c
    match alGet st.conversations c.id with
    | some cs =>
      let title_changed := titleChangedOf c cs
      let content_changed := contentChangedOf c cs
      if title_changed = false ∧ content_changed = false then
        { ok := false, state := st, dav := dav }
      else
        syncTail env c st dav content_hash (syncTargetFilename env c st)
          (syncOldFilename c st) title_changed content_changed
    | none =>
      -- New conversation: `content_changed` keeps its initial `True`.
      syncTail env c st dav content_hash (syncTargetFilename env c st)
        none false true

/-! ## Deletion sweep (`handle_deletions`, lines 423-463) -/

/-- The loop body of `handle_deletions` over the already-computed list of
deleted ids (Python iterates a set; the model fixes state insertion order).
An entry with no filename is dropped outright; otherwise the file is removed
if present and the entry dropped once removal is confirmed or moot; a raise
from `exists`/`remove` keeps the entry for retry. -/
def deletionPass (f : Faults) (outputDir : String) :
    List String → Nat → SyncState → Dav → Nat × SyncState × Dav
  | [], n, st, d => (n, st, d)
  | conv_id :: rest, n, st, d =>
    match alGet st.conversations conv_id with
    | none => deletionPass f outputDir rest n (eraseEntry st conv_id) d
    | some cs =>
      if cs.filename = "" then
        deletionPass f outputDir rest n (eraseEntry st conv_id) d
      else
        let remote := outputDir ++ "/" ++ cs.filename
        match Dav.existsQ f d remote with
        | .error _ => deletionPass f outputDir rest n st d
        | .ok true =>
          match Dav.removeF f d remote with
          | (false, d1) => deletionPass f outputDir rest n st d1
          | (true, d1) =>
            deletionPass f outputDir rest (n + 1) (eraseEntry st conv_id) d1
        | .ok false =>
          deletionPass f outputDir rest (n + 1) (eraseEntry st conv_id) d

/-- `handle_deletions` (lines 423-463): ids present in state but absent from
the fetched listing are swept. -/
def handle_deletions (f : Faults) (outputDir : String) (omiIds : List String)
    (st : SyncState) (d : Dav) : Nat × SyncState × Dav :=
  let deletedIds :=
    (st.conversations.map (fun kv => kv.1)).filter
      (fun i => (omiIds.contains i) = false)
  deletionPass f outputDir deletedIds 0 st d

/-- `ensure_output_directory` (lines 411-420): `none` models the function
returning `False` after a raise. -/
def ensure_output_directory (f : Faults) (d : Dav) (outputDir : String) :
    Option Dav :=
  match Dav.existsQ f d outputDir with
  | .error _ => none
  | .ok true => some d
  | .ok false =>
    if f.mkdirFails outputDir then none
    else some { d with dirs := d.dirs ++ [outputDir] }

/-! ## `run_sync_cycle` (lines 466-523) -/

/-- Line 490: `{c.get("id") for c in conversations if c.get("id")}`. -/
def omiIdsOf (convs : List Conversation) : List String :=
  (convs.map (fun c => c.id)).filter (fun i => i ≠ "")

/-- The per-record loop of lines 503-517 (the created/updated/skipped
counters are logging only and are dropped). -/
def syncFold (env : Env) : List Conversation → SyncState → Dav →
    SyncState × Dav
  | [], st, d => (st, d)
  | c :: rest, st, d =>
    let r := sync_conversation env c st d
    syncFold env rest r.state r.dav

/-- `run_sync_cycle` (lines 466-523).  `fetched` is the result of
`fetch_conversations()`: `none` is the failure sentinel `None`. -/
def run_sync_cycle (env : Env) (fetched : Option (List Conversation))
    (st : SyncState) (d : Dav) : SyncState × Dav :=
  if env.faults.clientInitFails then (st, d)
  else
    match ensure_output_directory env.faults d env.outputDir with
    | none => (st, d)
    | some d1 =>
      match fetched with
      | none => (st, d1)  -- Safety: do not delete if the API fetch failed.
      | some conversations =>
        let (_, st1, d2) :=
          handle_deletions env.faults env.outputDir (omiIdsOf conversations)
            st d1
        if conversations.isEmpty then (st1, d2)
        else
          let (st2, d3) := syncFold env conversations st1 d2
          ({ st2 with last_sync := some env.syncedAt }, d3)

/-- The filename-uniqueness invariant of the spec's data model. -/
def UniqueFilenames (st : SyncState) : Prop :=
  (st.conversations.map (fun kv => kv.2.filename)).Nodup

/-- Well-formedness of the id-keyed dict (automatic for a Python dict). -/
def UniqueKeys (st : SyncState) : Prop :=
  (st.conversations.map (fun kv => kv.1)).Nodup

instance (st : SyncState) : Decidable (UniqueFilenames st) := by
  unfold UniqueFilenames; infer_instance

instance (st : SyncState) : Decidable (UniqueKeys st) := by
  unfold UniqueKeys; infer_instance

/-- A trace entry recording a write or move call that raised. -/
def failedWriteOrMove : StoreOp → Bool
  | .write _ ok => !ok
  | .move _ _ ok => !ok
  | .remove _ _ => false

/-! ## Concrete fixtures for witnesses and counterexamples -/

/-- A fault-free environment over a short output directory. -/
def envN : Env :=
  { faults := noFaults, nowSuffix := "09152025",
    syncedAt := "2025-09-15T00:00:00+00:00", outputDir := "/c" }

def stEmpty : SyncState := { last_sync := none, conversations := [] }

def davEmpty : Dav := { files := [], dirs := ["/c"], trace := [] }

/-- A record with the given id and title and fixed content. -/
def mkConv (id title : String) : Conversation :=
  { id := id, created_at := "2024-01-02T03:04:05Z",
    structured :=
      { title := some title, category := "cat", overview := "ov", extra := [] },
    transcript_segments := [] }

def convU : Conversation := mkConv "u" "U"

/-- A state in which `convU` is already synced and unchanged. -/
def stU : SyncState :=
  { last_sync := none,
    conversations := [("u",
      { omi_hash := compute_content_hash convU, filename := "U.md",
        title := "U" })] }

def convV : Conversation := mkConv "u" "V"

/-- A state recording `convV` under its old title `U`: the stored title
differs but the stored fingerprint matches, forcing the title-only path. -/
def stV7 : SyncState :=
  { last_sync := none,
    conversations := [("u",
      { omi_hash := compute_content_hash convV, filename := "U.md",
        title := "U" })] }

def davU7 : Dav :=
  { files := [("/c/U.md", .raw "user edited bytes")], dirs := ["/c"],
    trace := [] }

/-- A server with no file for the stored entry of `stV7`. -/
def davGone : Dav := { files := [], dirs := ["/c"], trace := [] }

/-- A previous document carrying one user key and one stale reserved key. -/
def prevDoc : Post :=
  { metadata := [("project", "x"), ("_omi_id", "stale")], body := "old" }

def davPrev : Dav :=
  { files := [("/c/U.md", .doc prevDoc)], dirs := ["/c"], trace := [] }

def convNew : Conversation := mkConv "a" "New"

/-- A state recording record `a` under a stale hash and old title, so that
processing regenerates it and then removes the superseded old file. -/
def stOld : SyncState :=
  { last_sync := none,
    conversations := [("a",
      { omi_hash := "stale", filename := "Old.md", title := "Old" })] }

def davOld : Dav :=
  { files := [("/c/Old.md", .raw "body")], dirs := ["/c"], trace := [] }

/-- Faults making exactly the remove of the superseded old file raise. -/
def envRmFail : Env :=
  { faults := { noFaults with removeFails := fun p => p == "/c/Old.md" },
    nowSuffix := "09152025", syncedAt := "TS", outputDir := "/c" }

/-- Faults making every upload to the new record's path raise. -/
def envWrFail : Env :=
  { faults := { noFaults with writeFails := fun p => p == "/c/New.md" },
    nowSuffix := "09152025", syncedAt := "TS", outputDir := "/c" }

def stGone : SyncState :=
  { last_sync := none,
    conversations := [("gone",
      { omi_hash := "h", filename := "gone.md", title := "G" })] }

def davGoneFile : Dav :=
  { files := [("/c/gone.md", .raw "x")], dirs := ["/c"], trace := [] }

/-! ## Helper lemmas about the dict model -/

theorem alGet_alSet {α : Type} (l : List (String × α)) (k : String) (v : α) :
    alGet (alSet l k v) k = some v := by
  induction l with
  | nil => simp [alGet, alSet]
  | cons kv rest ih =>
    obtain ⟨k1, v1⟩ := kv
    by_cases hk : k1 = k
    · simp [alGet, alSet, hk]
    · simp [alGet, alSet, hk, ih]

theorem alGet_append {α : Type} (a b : List (String × α)) (k : String) :
    alGet (a ++ b) k =
      match alGet a k with
      | some v => some v
      | none => alGet b k := by
  induction a with
  | nil => simp [alGet]
  | cons kv rest ih =>
    obtain ⟨k1, v1⟩ := kv
    by_cases hk : k1 = k <;> simp [alGet, hk, ih]

theorem mem_alSet {α : Type} (l : List (String × α)) (k : String) (v : α)
    (x : String × α) (hx : x ∈ alSet l k v) : x ∈ l ∨ x = (k, v) := by
  induction l with
  | nil => simp [alSet] at hx; simp [hx]
  | cons kv rest ih =>
    obtain ⟨k1, v1⟩ := kv
    by_cases hk : k1 = k
    · simp [alSet, hk] at hx
      rcases hx with hx | hx
      · right; simp [hx]
      · left; simp [hx]
    · simp [alSet, hk] at hx
      rcases hx with hx | hx
      · left; simp [hx]
      · rcases ih hx with h1 | h1
        · left; simp [h1]
        · right; exact h1

/-! ## Filename-uniqueness lemmas -/

theorem filenames_alErase_nodup (l : List (String × StateEntry)) (k : String)
    (h : (l.map (fun kv => kv.2.filename)).Nodup) :
    ((alErase l k).map (fun kv => kv.2.filename)).Nodup :=
  h.sublist ((List.filter_sublist l).map _)

theorem filenames_alSet_nodup (l : List (String × StateEntry)) (id : String)
    (e : StateEntry)
    (hk : (l.map (fun kv => kv.1)).Nodup)
    (hl : (l.map (fun kv => kv.2.filename)).Nodup)
    (hfresh : ∀ kv ∈ l, kv.1 ≠ id → kv.2.filename ≠ e.filename) :
    ((alSet l id e).map (fun kv => kv.2.filename)).Nodup := by
  induction l with
  | nil => simp [alSet]
  | cons kv rest ih =>
    obtain ⟨k1, v1⟩ := kv
    simp only [List.map_cons, List.nodup_cons] at hk hl
    by_cases hkk : k1 = id
    · subst hkk
      rw [show alSet ((k1, v1) :: rest) k1 e = (k1, e) :: rest from by
        simp [alSet]]
      simp only [List.map_cons, List.nodup_cons]
      refine ⟨?_, hl.2⟩
      intro hmem
      rcases List.mem_map.mp hmem with ⟨kv2, hkv2, hfn⟩
      have hne : kv2.1 ≠ k1 := by
        intro heq
        exact hk.1 (List.mem_map.mpr ⟨kv2, hkv2, heq⟩)
      exact hfresh kv2 (List.mem_cons_of_mem _ hkv2) hne hfn
    · simp only [alSet, if_neg hkk, List.map_cons, List.nodup_cons]
      constructor
      · intro hmem
        rcases List.mem_map.mp hmem with ⟨kv2, hkv2, hfn⟩
        rcases mem_alSet rest id e kv2 hkv2 with hmem2 | heq
        · exact hl.1 (hfn ▸ List.mem_map.mpr ⟨kv2, hmem2, rfl⟩)
        · have : v1.filename ≠ e.filename :=
            hfresh (k1, v1) (List.mem_cons_self _ _) hkk
          rw [heq] at hfn
          exact this hfn.symm
      · exact ih hk.2 hl.2
          (fun kv2 h2 => hfresh kv2 (List.mem_cons_of_mem _ h2))

/-! ## Metadata-merge lemmas -/

theorem mergeMetadata_persist (ex : List (String × String)) :
    ∀ (acc : List (String × String)) (k : String) (v : String),
      alGet acc k = some v → alGet (mergeMetadata ex acc) k = some v := by
  induction ex with
  | nil => intro acc k v h; simpa [mergeMetadata] using h
  | cons kv rest ih =>
    intro acc k v h
    simp only [mergeMetadata, List.foldl_cons]
    by_cases hc : (kv.1.data.head? ≠ some '_') ∧ alGet acc kv.1 = none
    · rw [if_pos hc]
      exact ih (acc ++ [kv]) k v (by rw [alGet_append, h])
    · rw [if_neg hc]
      exact ih acc k v h

theorem mergeMetadata_user (ex : List (String × String)) :
    ∀ (acc : List (String × String)) (k : String) (v : String),
      alGet ex k = some v → k.data.head? ≠ some '_' → alGet acc k = none →
      alGet (mergeMetadata ex acc) k = some v := by
  induction ex with
  | nil => intro acc k v h; simp [alGet] at h
  | cons kv rest ih =>
    intro acc k v hex hu hnone
    obtain ⟨k1, v1⟩ := kv
    simp only [mergeMetadata, List.foldl_cons]
    by_cases hk : k1 = k
    · subst hk
      simp [alGet] at hex
      rw [if_pos ⟨hu, hnone⟩]
      refine mergeMetadata_persist rest _ k1 v ?_
      rw [alGet_append, hnone]
      simp [alGet, hex]
    · simp only [alGet, if_neg hk] at hex
      by_cases hc : (k1.data.head? ≠ some '_') ∧ alGet acc k1 = none
      · rw [if_pos hc]
        refine ih _ k v hex hu ?_
        rw [alGet_append, hnone]
        simp [alGet, hk]
      · rw [if_neg hc]
        exact ih acc k v hex hu hnone

/-! ## Store-operation characterizations -/

theorem upload_snd_trace (f : Faults) (d : Dav) (p : String) (b : Bytes) :
    (Dav.upload f d p b).2.trace =
      d.trace ++ [.write p (Dav.upload f d p b).1] := by
  unfold Dav.upload; split <;> rfl

theorem upload_false_files (f : Faults) (d : Dav) (p : String) (b : Bytes)
    (h : (Dav.upload f d p b).1 = false) :
    (Dav.upload f d p b).2.files = d.files := by
  unfold Dav.upload at *
  split at h <;> simp_all

theorem move_snd_trace (f : Faults) (d : Dav) (s t : String) :
    (Dav.move f d s t).2.trace =
      d.trace ++ [.move s t (Dav.move f d s t).1] := by
  unfold Dav.move
  split
  · rfl
  · split <;> rfl

theorem move_false_files (f : Faults) (d : Dav) (s t : String)
    (h : (Dav.move f d s t).1 = false) :
    (Dav.move f d s t).2.files = d.files := by
  by_cases hf : f.moveFails s t = true
  · simp [Dav.move, hf]
  · rcases halg : alGet d.files s with _ | b
    · simp [Dav.move, hf, halg]
    · simp [Dav.move, hf, halg] at h

theorem removeF_snd_trace (f : Faults) (d : Dav) (p : String) :
    (Dav.removeF f d p).2.trace =
      d.trace ++ [.remove p (Dav.removeF f d p).1] := by
  unfold Dav.removeF; split <;> rfl

theorem ensure_some (f : Faults) (d : Dav) (dir : String) (d1 : Dav)
    (h : ensure_output_directory f d dir = some d1) :
    d1.trace = d.trace ∧ d1.files = d.files := by
  unfold ensure_output_directory at h
  split at h
  · exact absurd h (by simp)
  · injection h with h; subst h; exact ⟨rfl, rfl⟩
  · split at h
    · exact absurd h (by simp)
    · injection h with h; subst h; exact ⟨rfl, rfl⟩

/-! ## Case analyses of `sync_conversation` -/

theorem syncTail_trace_ext (env : Env) (c : Conversation) (st : SyncState)
    (d : Dav) (ch fn : String) (ofn : Option String) (tc cc : Bool) :
    ∃ tr, (syncTail env c st d ch fn ofn tc cc).dav.trace = d.trace ++ tr := by
  simp only [syncTail]
  split
  · split
    · exact ⟨[], (List.append_nil _).symm⟩
    · split
      · next d1 heq =>
        have h2 : (Dav.move env.faults d _ _).2 = d1 := congrArg Prod.snd heq
        rw [← h2]
        exact ⟨_, move_snd_trace _ _ _ _⟩
      · next d1 heq =>
        have h2 : (Dav.move env.faults d _ _).2 = d1 := congrArg Prod.snd heq
        rw [← h2]
        exact ⟨_, move_snd_trace _ _ _ _⟩
    · exact ⟨[], (List.append_nil _).symm⟩
  · split
    · next d1 heq =>
      have h2 : (Dav.upload env.faults d _ _).2 = d1 := congrArg Prod.snd heq
      rw [← h2]
      exact ⟨_, upload_snd_trace _ _ _ _⟩
    · next d1 heq =>
      have h2 : (Dav.upload env.faults d _ _).2 = d1 := congrArg Prod.snd heq
      obtain ⟨tr1, h3⟩ : ∃ tr1, d1.trace = d.trace ++ tr1 :=
        ⟨_, by rw [← h2]; exact upload_snd_trace _ _ _ _⟩
      split
      · split
        · split
          · exact ⟨_, h3⟩
          · exact ⟨_, h3⟩
          · rw [removeF_snd_trace, h3, List.append_assoc]
            exact ⟨_, rfl⟩
        · exact ⟨_, h3⟩
      · exact ⟨_, h3⟩

theorem syncTail_state_cases (env : Env) (c : Conversation) (st : SyncState)
    (d : Dav) (ch fn : String) (ofn : Option String) (tc cc : Bool) :
    (syncTail env c st d ch fn ofn tc cc).state = st ∨
    (syncTail env c st d ch fn ofn tc cc).state =
      setEntry st c.id
        { omi_hash := ch, filename := fn,
          title := currentTitle c.structured } := by
  simp only [syncTail]
  split
  · split
    · left; rfl
    · split
      · left; rfl
      · right; rfl
    · right; rfl
  · split
    · left; rfl
    · split
      · split
        · split
          · right; rfl
          · right; rfl
          · right; rfl
        · right; rfl
      · right; rfl

/-- Frame property of `syncTail`: if some issued write or move raised, the
record is reported failed and neither the state nor the server files moved
(only the trace recorded the attempt). -/
theorem syncTail_frame (env : Env) (c : Conversation) (st : SyncState)
    (d : Dav) (ch fn : String) (ofn : Option String) (tc cc : Bool) :
    (((syncTail env c st d ch fn ofn tc cc).dav.trace).drop
        d.trace.length).any failedWriteOrMove = true →
    (syncTail env c st d ch fn ofn tc cc).ok = false ∧
    (syncTail env c st d ch fn ofn tc cc).state = st ∧
    (syncTail env c st d ch fn ofn tc cc).dav.files = d.files := by
  simp only [syncTail]
  split
  · split
    · intro h; rw [List.drop_length] at h; simp at h
    · split
      · next d1 heq =>
        intro _
        have h2 : (Dav.move env.faults d _ _).2 = d1 := congrArg Prod.snd heq
        have h1 : (Dav.move env.faults d _ _).1 = false :=
          congrArg Prod.fst heq
        refine ⟨rfl, rfl, ?_⟩
        rw [← h2]
        exact move_false_files _ _ _ _ h1
      · next d1 heq =>
        intro h
        have h2 : (Dav.move env.faults d _ _).2 = d1 := congrArg Prod.snd heq
        have h1 : (Dav.move env.faults d _ _).1 = true :=
          congrArg Prod.fst heq
        have htr : d1.trace = d.trace ++
            [.move (env.outputDir ++ "/" ++ ofn.getD "")
              (env.outputDir ++ "/" ++ fn) true] := by
          rw [← h2, move_snd_trace, h1]
        rw [htr, List.drop_left] at h
        simp [failedWriteOrMove] at h
    · intro h; rw [List.drop_length] at h; simp at h
  · split
    · next d1 heq =>
      intro _
      have h2 : (Dav.upload env.faults d _ _).2 = d1 := congrArg Prod.snd heq
      have h1 : (Dav.upload env.faults d _ _).1 = false :=
        congrArg Prod.fst heq
      refine ⟨rfl, rfl, ?_⟩
      rw [← h2]
      exact upload_false_files _ _ _ _ h1
    · next d1 heq =>
      have h2 : (Dav.upload env.faults d _ _).2 = d1 := congrArg Prod.snd heq
      have h1 : (Dav.upload env.faults d _ _).1 = true := congrArg Prod.fst heq
      have htr : d1.trace = d.trace ++
          [.write (env.outputDir ++ "/" ++ fn) true] := by
        rw [← h2, upload_snd_trace, h1]
      split
      · split
        · split
          · intro h
            rw [htr, List.drop_left] at h
            simp [failedWriteOrMove] at h
          · intro h
            rw [htr, List.drop_left] at h
            simp [failedWriteOrMove] at h
          · intro h
            rw [removeF_snd_trace, htr, List.append_assoc,
              List.drop_left] at h
            simp [failedWriteOrMove] at h
        · intro h
          rw [htr, List.drop_left] at h
          simp [failedWriteOrMove] at h
      · intro h
        rw [htr, List.drop_left] at h
        simp [failedWriteOrMove] at h

/-- A record classified Unchanged is a strict no-op: lines 300-302 return
before any filename work or store access. -/
theorem sync_noop_of_unchanged (env : Env) (c : Conversation) (st : SyncState)
    (d : Dav) (h : classify c (alGet st.conversations c.id) = .Unchanged) :
    sync_conversation env c st d = { ok := false, state := st, dav := d } := by
  by_cases hid : c.id = ""
  · simp [sync_conversation, hid]
  · rcases halg : alGet st.conversations c.id with _ | cs
    · rw [halg] at h; simp [classify] at h
    · rw [halg] at h
      by_cases hcc : contentChangedOf c cs = true
      · simp [classify, hcc] at h
      · by_cases htc : titleChangedOf c cs = true
        · simp [classify, hcc, htc] at h
        · have hcc2 : contentChangedOf c cs = false := by
            revert hcc; cases contentChangedOf c cs <;> simp
          have htc2 : titleChangedOf c cs = false := by
            revert htc; cases titleChangedOf c cs <;> simp
          simp [sync_conversation, hid, halg, hcc2, htc2]

theorem sync_state_cases (env : Env) (c : Conversation) (st : SyncState)
    (d : Dav) :
    (sync_conversation env c st d).state = st ∨
    (sync_conversation env c st d).state =
      setEntry st c.id
        { omi_hash := compute_content_hash c,
          filename := syncTargetFilename env c st,
          title := currentTitle c.structured } := by
  by_cases hid : c.id = ""
  · left; simp [sync_conversation, hid]
  · rcases halg : alGet st.conversations c.id with _ | cs
    · simp only [sync_conversation, if_neg hid, halg]
      exact syncTail_state_cases env c st d _ _ _ _ _
    · simp only [sync_conversation, if_neg hid, halg]
      split
      · left; rfl
      · exact syncTail_state_cases env c st d _ _ _ _ _

theorem sync_trace_ext (env : Env) (c : Conversation) (st : SyncState)
    (d : Dav) :
    ∃ tr, (sync_conversation env c st d).dav.trace = d.trace ++ tr := by
  by_cases hid : c.id = ""
  · exact ⟨[], by simp [sync_conversation, hid]⟩
  · rcases halg : alGet st.conversations c.id with _ | cs
    · simp only [sync_conversation, if_neg hid, halg]
      exact syncTail_trace_ext env c st d _ _ _ _ _
    · simp only [sync_conversation, if_neg hid, halg]
      split
      · exact ⟨[], (List.append_nil _).symm⟩
      · exact syncTail_trace_ext env c st d _ _ _ _ _

theorem syncFold_trace_ext (env : Env) (convs : List Conversation) :
    ∀ (st : SyncState) (d : Dav),
      ∃ tr, (syncFold env convs st d).2.trace = d.trace ++ tr := by
  induction convs with
  | nil => intro st d; exact ⟨[], (List.append_nil _).symm⟩
  | cons c rest ih =>
    intro st d
    obtain ⟨t1, h1⟩ := sync_trace_ext env c st d
    obtain ⟨t2, h2⟩ :=
      ih (sync_conversation env c st d).state (sync_conversation env c st d).dav
    exact ⟨t1 ++ t2, by
      simp only [syncFold, h2, h1, List.append_assoc]⟩

theorem syncFold_noop (env : Env) (convs : List Conversation) (st : SyncState)
    (d : Dav)
    (h : ∀ c ∈ convs, classify c (alGet st.conversations c.id) = .Unchanged) :
    syncFold env convs st d = (st, d) := by
  induction convs with
  | nil => rfl
  | cons c rest ih =>
    have hc := sync_noop_of_unchanged env c st d
      (h c (List.mem_cons_self _ _))
    simp only [syncFold, hc]
    exact ih (fun c2 h2 => h c2 (List.mem_cons_of_mem _ h2))

theorem deletionPass_trace_ext (f : Faults) (dir : String)
    (ids : List String) :
    ∀ (n : Nat) (st : SyncState) (d : Dav),
      ∃ tr, (deletionPass f dir ids n st d).2.2.trace = d.trace ++ tr := by
  induction ids with
  | nil => intro n st d; exact ⟨[], (List.append_nil _).symm⟩
  | cons i rest ih =>
    intro n st d
    simp only [deletionPass]
    split
    · exact ih n (eraseEntry st i) d
    · split
      · exact ih n (eraseEntry st i) d
      · split
        · exact ih n st d
        · split
          · next d1 heq =>
            have hsnd : (Dav.removeF f d _).2 = d1 := congrArg Prod.snd heq
            obtain ⟨tr1, h1⟩ : ∃ tr1, d1.trace = d.trace ++ tr1 :=
              ⟨_, by rw [← hsnd]; exact removeF_snd_trace _ _ _⟩
            obtain ⟨tr2, h2⟩ := ih n st d1
            exact ⟨tr1 ++ tr2, by rw [h2, h1, List.append_assoc]⟩
          · next d1 heq =>
            have hsnd : (Dav.removeF f d _).2 = d1 := congrArg Prod.snd heq
            obtain ⟨tr1, h1⟩ : ∃ tr1, d1.trace = d.trace ++ tr1 :=
              ⟨_, by rw [← hsnd]; exact removeF_snd_trace _ _ _⟩
            obtain ⟨tr2, h2⟩ := ih (n + 1) (eraseEntry st i) d1
            exact ⟨tr1 ++ tr2, by rw [h2, h1, List.append_assoc]⟩
        · exact ih (n + 1) (eraseEntry st i) d

theorem deletionPass_filenames_nodup (f : Faults) (dir : String)
    (ids : List String) :
    ∀ (n : Nat) (st : SyncState) (d : Dav), UniqueFilenames st →
      UniqueFilenames (deletionPass f dir ids n st d).2.1 := by
  induction ids with
  | nil => intro n st d h; exact h
  | cons i rest ih =>
    intro n st d h
    have herase : UniqueFilenames (eraseEntry st i) :=
      filenames_alErase_nodup st.conversations i h
    simp only [deletionPass]
    split
    · exact ih n (eraseEntry st i) d herase
    · split
      · exact ih n (eraseEntry st i) d herase
      · split
        · exact ih n st d h
        · split
          · next d1 heq => exact ih n st d1 h
          · next d1 heq => exact ih (n + 1) (eraseEntry st i) d1 herase
        · exact ih (n + 1) (eraseEntry st i) d herase

/-! ## Claim theorems -/

/-- C1: if the fetch of the full record list fails (`fetch_conversations`
returned the failure sentinel `None`), then for every prior state the
deletion sweep is never invoked during that cycle — no store mutation is
issued at all — and `run_sync_cycle` returns the state unchanged. -/
theorem C1_fetch_failure_skips_deletions (env : Env) (st : SyncState)
    (d : Dav) :
    (run_sync_cycle env none st d).1 = st ∧
    (run_sync_cycle env none st d).2.trace = d.trace ∧
    (run_sync_cycle env none st d).2.files = d.files := by
  by_cases hcf : env.faults.clientInitFails = true
  · simp [run_sync_cycle, hcf]
  · rcases hens : ensure_output_directory env.faults d env.outputDir with _ | d1
    · simp [run_sync_cycle, hcf, hens]
    · obtain ⟨ht, hf⟩ := ensure_some _ _ _ _ hens
      simp [run_sync_cycle, hcf, hens, ht, hf]

/-- C3: the change classification used by `sync_conversation` — no stored
entry means New; with a stored entry, titleChanged holds iff the stored
title is non-empty and differs from the record's, contentChanged holds iff
the stored fingerprint differs; both false means Unchanged and no action is
taken; contentChanged forces ContentChanged regardless of titleChanged;
only-titleChanged means TitleOnly. -/
theorem C3_classification (env : Env) (c : Conversation) (e : StateEntry)
    (st : SyncState) (d : Dav) :
    classify c none = .New ∧
    (titleChangedOf c e = true ↔
      (e.title ≠ "" ∧ e.title ≠ currentTitle c.structured)) ∧
    (contentChangedOf c e = true ↔ e.omi_hash ≠ compute_content_hash c) ∧
    (classify c (some e) = .Unchanged ↔
      (titleChangedOf c e = false ∧ contentChangedOf c e = false)) ∧
    (contentChangedOf c e = true → classify c (some e) = .ContentChanged) ∧
    ((titleChangedOf c e = true ∧ contentChangedOf c e = false) →
      classify c (some e) = .TitleOnly) ∧
    (classify c (alGet st.conversations c.id) = .Unchanged →
      sync_conversation env c st d = { ok := false, state := st, dav := d }) := by
  refine ⟨rfl, by simp [titleChangedOf], by simp [contentChangedOf],
    ?_, ?_, ?_, sync_noop_of_unchanged env c st d⟩
  · rcases hcc : contentChangedOf c e <;>
      rcases htc : titleChangedOf c e <;> simp [classify, hcc, htc]
  · intro hcc; simp [classify, hcc]
  · rintro ⟨htc, hcc⟩; simp [classify, hcc, htc]

/-- C3 witness: a concretely unchanged record is a strict no-op. -/
theorem C3_witness :
    sync_conversation envN convU stU davEmpty =
      { ok := false, state := stU, dav := davEmpty } :=
  (C3_classification envN convU
    { omi_hash := compute_content_hash convU, filename := "U.md",
      title := "U" } stU davEmpty).2.2.2.2.2.2 (by decide)

theorem string_data_append (a b : String) :
    (a ++ b).data = a.data ++ b.data := rfl

theorem append_suffix_ne (base sfx : String) :
    base ++ "_" ++ sfx ++ ".md" ≠ base ++ ".md" := by
  intro h
  have hd : (base ++ "_" ++ sfx ++ ".md").data = (base ++ ".md").data :=
    congrArg String.data h
  rw [string_data_append, string_data_append, string_data_append,
    string_data_append, List.append_assoc, List.append_assoc] at hd
  have h2 := List.append_cancel_left hd
  have hu : ("_" : String).data = ['_'] := rfl
  have hmd : (".md" : String).data = ['.', 'm', 'd'] := rfl
  rw [hu, hmd] at h2
  injection h2 with h3 h4
  exact absurd h3 (by decide)

/-- C9: allocation returns the sanitized candidate when it is not in use;
otherwise it appends an underscore and the date suffix derived from the
creation timestamp (falling back to the current time when unparseable), and
the resulting name differs from the unsuffixed candidate. -/
theorem C9_filename_allocation (nowS title created : String)
    (st : SyncState) :
    (((existingFilenames st).contains (sanitize_title title ++ ".md"))
        = false →
      generate_filename nowS title created st =
        sanitize_title title ++ ".md") ∧
    (((existingFilenames st).contains (sanitize_title title ++ ".md"))
        = true →
      generate_filename nowS title created st =
        sanitize_title title ++ "_" ++
          (parseDateSuffix created).getD nowS ++ ".md" ∧
      generate_filename nowS title created st ≠
        sanitize_title title ++ ".md") := by
  constructor
  · intro h
    simp only [generate_filename]
    rw [if_pos h]
  · intro h
    have hneg :
        ¬ ((existingFilenames st).contains (sanitize_title title ++ ".md")
            = false) := by rw [h]; simp
    refine ⟨?_, ?_⟩
    · simp only [generate_filename]
      rw [if_neg hneg]
    · simp only [generate_filename]
      rw [if_neg hneg]
      exact append_suffix_ne _ _

/-- C9 witness: with `A.md` taken, a second record titled `A` receives the
date-suffixed name, distinct from `A.md`. -/
theorem C9_witness :
    generate_filename "09152025" "A" "2024-01-02T00:00:00Z"
        { last_sync := none,
          conversations := [("x",
            { omi_hash := "h", filename := "A.md", title := "A" })] } =
      sanitize_title "A" ++ "_" ++
        (parseDateSuffix "2024-01-02T00:00:00Z").getD "09152025" ++ ".md" ∧
    generate_filename "09152025" "A" "2024-01-02T00:00:00Z"
        { last_sync := none,
          conversations := [("x",
            { omi_hash := "h", filename := "A.md", title := "A" })] } ≠
      sanitize_title "A" ++ ".md" :=
  (C9_filename_allocation "09152025" "A" "2024-01-02T00:00:00Z"
    { last_sync := none,
      conversations := [("x",
        { omi_hash := "h", filename := "A.md", title := "A" })] }).2
    (by decide)

/-- C4: a cycle over a record set in which every record is classified
Unchanged against the current state and no state id is missing from the
fetch issues zero destination write/move/remove operations and leaves every
state entry untouched.  In particular a second consecutive cycle over an
unchanged record set — whose first run produced exactly such a state — is
operation-free. -/
theorem C4_idempotent_cycle (env : Env) (convs : List Conversation)
    (st : SyncState) (d : Dav)
    (h1 : ∀ c ∈ convs, classify c (alGet st.conversations c.id) = .Unchanged)
    (h2 : ∀ kv ∈ st.conversations, (omiIdsOf convs).contains kv.1 = true) :
    (run_sync_cycle env (some convs) st d).1.conversations =
      st.conversations ∧
    (run_sync_cycle env (some convs) st d).2.trace = d.trace ∧
    (run_sync_cycle env (some convs) st d).2.files = d.files := by
  by_cases hcf : env.faults.clientInitFails = true
  · simp [run_sync_cycle, hcf]
  · rcases hens : ensure_output_directory env.faults d env.outputDir with _ | d1
    · simp [run_sync_cycle, hcf, hens]
    · obtain ⟨ht, hf⟩ := ensure_some _ _ _ _ hens
      have hdel : ((st.conversations.map (fun kv => kv.1)).filter
          (fun i => ((omiIdsOf convs).contains i) = false)) = [] := by
        refine List.filter_eq_nil_iff.mpr ?_
        intro a ha
        rcases List.mem_map.mp ha with ⟨kv, hkv, rfl⟩
        rw [h2 kv hkv]
        simp
      have hhd : handle_deletions env.faults env.outputDir (omiIdsOf convs)
          st d1 = (0, st, d1) := by
        simp only [handle_deletions, hdel, deletionPass]
      have hfold := syncFold_noop env convs st d1 h1
      rcases convs with _ | ⟨c0, rest⟩
      · simp [run_sync_cycle, hcf, hens, hhd, ht, hf]
      · simp [run_sync_cycle, hcf, hens, hhd, hfold, ht, hf]

/-- C4 witness: one concretely unchanged record, no deletions. -/
theorem C4_witness :
    (run_sync_cycle envN (some [convU]) stU davEmpty).1.conversations =
      stU.conversations ∧
    (run_sync_cycle envN (some [convU]) stU davEmpty).2.trace =
      davEmpty.trace ∧
    (run_sync_cycle envN (some [convU]) stU davEmpty).2.files =
      davEmpty.files :=
  C4_idempotent_cycle envN [convU] stU davEmpty (by decide) (by decide)

/-- C7: a record with a stored entry whose title changed and whose
fingerprint is unchanged is processed with exactly one move and zero writes
(the trace gains exactly the one move operation); the destination file's
bytes are the unaltered source bytes; and the state entry receives the new
title and filename while keeping the previously stored fingerprint. -/
theorem C7_title_only_rename (env : Env) (c : Conversation) (st : SyncState)
    (d : Dav) (e : StateEntry) (b : Bytes)
    (hf : env.faults = noFaults)
    (hid : c.id ≠ "")
    (hlook : alGet st.conversations c.id = some e)
    (hfn : e.filename ≠ "")
    (htc : titleChangedOf c e = true)
    (hcc : contentChangedOf c e = false)
    (hold : alGet d.files (env.outputDir ++ "/" ++ e.filename) = some b) :
    (sync_conversation env c st d).ok = true ∧
    (sync_conversation env c st d).dav.trace = d.trace ++
      [.move (env.outputDir ++ "/" ++ e.filename)
        (env.outputDir ++ "/" ++ generate_filename env.nowSuffix
          (currentTitle c.structured) c.created_at (eraseEntry st c.id))
        true] ∧
    alGet (sync_conversation env c st d).dav.files
      (env.outputDir ++ "/" ++ generate_filename env.nowSuffix
        (currentTitle c.structured) c.created_at (eraseEntry st c.id)) =
      some b ∧
    alGet (sync_conversation env c st d).state.conversations c.id =
      some { omi_hash := e.omi_hash,
             filename := generate_filename env.nowSuffix
               (currentTitle c.structured) c.created_at (eraseEntry st c.id),
             title := currentTitle c.structured } := by
  have he : e.omi_hash = compute_content_hash c := by
    simpa [contentChangedOf] using hcc
  have htarget : syncTargetFilename env c st =
      generate_filename env.nowSuffix (currentTitle c.structured)
        c.created_at (eraseEntry st c.id) := by
    simp [syncTargetFilename, hlook, hfn, htc]
  have holdfn : syncOldFilename c st = some e.filename := by
    simp [syncOldFilename, hlook, hfn, htc]
  simp only [sync_conversation, if_neg hid, hlook, htc, hcc, htarget,
    holdfn, syncTail, hf, noFaults, Dav.existsQ, Dav.move, hold]
  simp [alGet_alSet, he, hold, setEntry]

/-- C7 witness: a concrete title-only rename issues exactly the one move. -/
theorem C7_witness :
    (sync_conversation envN convV stV7 davU7).ok = true ∧
    (sync_conversation envN convV stV7 davU7).dav.trace =
      davU7.trace ++
      [.move (envN.outputDir ++ "/" ++ "U.md")
        (envN.outputDir ++ "/" ++ generate_filename envN.nowSuffix
          (currentTitle convV.structured)
          convV.created_at (eraseEntry stV7 "u")) true] ∧
    alGet (sync_conversation envN convV stV7 davU7).dav.files
      (envN.outputDir ++ "/" ++ generate_filename envN.nowSuffix
        (currentTitle convV.structured)
        convV.created_at (eraseEntry stV7 "u")) =
      some (.raw "user edited bytes") ∧
    alGet (sync_conversation envN convV stV7
        davU7).state.conversations "u" =
      some { omi_hash := compute_content_hash convV,
             filename := generate_filename envN.nowSuffix
               (currentTitle convV.structured)
               convV.created_at (eraseEntry stV7 "u"),
             title := currentTitle convV.structured } :=
  C7_title_only_rename envN convV stV7 davU7
    { omi_hash := compute_content_hash convV, filename := "U.md",
      title := "U" }
    (.raw "user edited bytes") rfl (by decide) (by decide) (by decide)
    (by decide) (by decide) (by decide)

/-- C10: in the title-only path, when the previously recorded destination
file does not exist on the server, no move, write or remove is issued (the
server is left entirely unchanged), yet the state entry is still updated to
the newly allocated filename and new title and the record is reported
successfully synced. -/
theorem C10_rename_missing_source (env : Env) (c : Conversation)
    (st : SyncState) (d : Dav) (e : StateEntry)
    (hf : env.faults = noFaults)
    (hid : c.id ≠ "")
    (hlook : alGet st.conversations c.id = some e)
    (hfn : e.filename ≠ "")
    (htc : titleChangedOf c e = true)
    (hcc : contentChangedOf c e = false)
    (hold : alGet d.files (env.outputDir ++ "/" ++ e.filename) = none)
    (hdir : (env.outputDir ++ "/" ++ e.filename) ∉ d.dirs) :
    (sync_conversation env c st d).ok = true ∧
    (sync_conversation env c st d).dav = d ∧
    alGet (sync_conversation env c st d).state.conversations c.id =
      some { omi_hash := e.omi_hash,
             filename := generate_filename env.nowSuffix
               (currentTitle c.structured) c.created_at (eraseEntry st c.id),
             title := currentTitle c.structured } := by
  have he : e.omi_hash = compute_content_hash c := by
    simpa [contentChangedOf] using hcc
  have htarget : syncTargetFilename env c st =
      generate_filename env.nowSuffix (currentTitle c.structured)
        c.created_at (eraseEntry st c.id) := by
    simp [syncTargetFilename, hlook, hfn, htc]
  have holdfn : syncOldFilename c st = some e.filename := by
    simp [syncOldFilename, hlook, hfn, htc]
  simp only [sync_conversation, if_neg hid, hlook, htc, hcc, htarget,
    holdfn, syncTail, hf, noFaults, Dav.existsQ, hold]
  simp [alGet_alSet, he, hold, hdir, setEntry]

/-- C10 witness: the rename of a record whose old file is missing performs
no operation but still succeeds and updates the entry. -/
theorem C10_witness :
    (sync_conversation envN convV stV7 davGone).ok = true ∧
    (sync_conversation envN convV stV7 davGone).dav = davGone ∧
    alGet (sync_conversation envN convV stV7 davGone).state.conversations
        "u" =
      some { omi_hash := compute_content_hash convV,
             filename := generate_filename envN.nowSuffix
               (currentTitle convV.structured) convV.created_at
               (eraseEntry stV7 "u"),
             title := currentTitle convV.structured } :=
  C10_rename_missing_source envN convV stV7 davGone
    { omi_hash := compute_content_hash convV, filename := "U.md",
      title := "U" }
    rfl (by decide) (by decide) (by decide) (by decide) (by decide)
    (by decide) (by decide)

/-- Every key of the freshly generated front matter keeps its value through
the metadata-preservation block, whatever the previous file holds. -/
theorem preserve_keeps_new (f : Faults) (d : Dav) (msp : String) (md : Post)
    (k v : String) (hv : alGet md.metadata k = some v) :
    alGet (preserveUserMetadata f d msp md).metadata k = some v := by
  unfold preserveUserMetadata
  split
  · exact hv
  · exact hv
  · split
    · exact hv
    · split
      · exact hv
      · exact mergeMetadata_persist _ _ _ _ hv

/-- C8: on regeneration with a previous document available, every
non-underscore key of the previous document absent from the newly built
metadata is copied in unchanged; the reserved underscore keys always carry
the newly computed values; and a previous document that fails to parse is
non-fatal, yielding the unmerged document (the warning is logging, outside
the model). -/
theorem C8_metadata_merge (f : Faults) (d : Dav) (msp : String)
    (c : Conversation) (syncedAt ch : String)
    (hex : f.existsFails msp = false)
    (hrd : f.readFails msp = false) :
    (∀ (prev : Post) (k v : String),
        alGet d.files msp = some (.doc prev) →
        alGet prev.metadata k = some v →
        k.data.head? ≠ some '_' →
        alGet (generate_markdown syncedAt c ch).metadata k = none →
        alGet (preserveUserMetadata f d msp
          (generate_markdown syncedAt c ch)).metadata k = some v) ∧
    (alGet (preserveUserMetadata f d msp
        (generate_markdown syncedAt c ch)).metadata "_omi_id" =
          some c.id ∧
      alGet (preserveUserMetadata f d msp
        (generate_markdown syncedAt c ch)).metadata "_content_hash" =
          some ch ∧
      alGet (preserveUserMetadata f d msp
        (generate_markdown syncedAt c ch)).metadata "_synced_at" =
          some syncedAt) ∧
    (∀ s : String, alGet d.files msp = some (.raw s) →
        preserveUserMetadata f d msp (generate_markdown syncedAt c ch) =
          generate_markdown syncedAt c ch) := by
  refine ⟨?_, ⟨?_, ?_, ?_⟩, ?_⟩
  · intro prev k v hdoc hprev hu hnew
    simp only [preserveUserMetadata, Dav.existsQ, hex, Bool.false_eq_true,
      if_false, hdoc, Option.isSome_some, Bool.true_or, Dav.readBytes, hrd,
      fmLoads]
    exact mergeMetadata_user _ _ _ _ hprev hu hnew
  · exact preserve_keeps_new f d msp _ _ _ rfl
  · exact preserve_keeps_new f d msp _ _ _ rfl
  · exact preserve_keeps_new f d msp _ _ _ rfl
  · intro s hraw
    simp only [preserveUserMetadata, Dav.existsQ, hex, Bool.false_eq_true,
      if_false, hraw, Option.isSome_some, Bool.true_or, Dav.readBytes, hrd,
      fmLoads]

/-- C8 witness: the user key survives a regeneration over `davPrev`. -/
theorem C8_witness :
    alGet (preserveUserMetadata noFaults davPrev "/c/U.md"
      (generate_markdown "TS" convU "h1")).metadata "project" = some "x" :=
  (C8_metadata_merge noFaults davPrev "/c/U.md" convU "TS" "h1" rfl rfl).1
    prevDoc "project" "x" (by decide) (by decide) (by decide) (by decide)

/-! ## C2: store-failure handling -/

/-- C2 counterexample: a remove issued while processing record `a` fails
(the trace records the failed remove of the old file), yet the record is
reported successfully synced and its state entry is changed — refuting the
claim that any failing write/move/remove leaves the record failed with its
entry untouched.  In the code (lines 383-390) a failed delete of the old
file is only a warning. -/
theorem C2_counterexample :
    (sync_conversation envRmFail convNew stOld davOld).dav.trace =
      [.write "/c/New.md" true, .remove "/c/Old.md" false] ∧
    (sync_conversation envRmFail convNew stOld davOld).ok = true ∧
    alGet (sync_conversation envRmFail convNew stOld
        davOld).state.conversations "a" ≠
      alGet stOld.conversations "a" := by decide

/-- C2 amended: if a WRITE or MOVE issued while processing a record fails,
the record is reported failed for the cycle, its state entry (indeed the
whole state) is exactly as before the attempt, and the server files are
untouched; a failing REMOVE of the superseded old file, however, is only
logged (see the counterexample).  Processing of the remaining records
continues regardless, `run_sync_cycle` folding over every fetched record. -/
theorem C2_store_failure_amended (env : Env) (c : Conversation)
    (st : SyncState) (d : Dav)
    (h : (((sync_conversation env c st d).dav.trace).drop
        d.trace.length).any failedWriteOrMove = true) :
    (sync_conversation env c st d).ok = false ∧
    (sync_conversation env c st d).state = st ∧
    (sync_conversation env c st d).dav.files = d.files := by
  by_cases hid : c.id = ""
  · rw [show sync_conversation env c st d =
        { ok := false, state := st, dav := d } from by
      simp [sync_conversation, hid]] at h
    rw [List.drop_length] at h
    simp at h
  · rcases halg : alGet st.conversations c.id with _ | cs
    · simp only [sync_conversation, if_neg hid, halg] at h ⊢
      exact syncTail_frame env c st d _ _ _ _ _ h
    · by_cases hskip :
          titleChangedOf c cs = false ∧ contentChangedOf c cs = false
      · rw [show sync_conversation env c st d =
            { ok := false, state := st, dav := d } from by
          simp [sync_conversation, hid, halg, hskip.1, hskip.2]] at h
        rw [List.drop_length] at h
        simp at h
      · simp only [sync_conversation, if_neg hid, halg] at h ⊢
        rw [if_neg hskip] at h ⊢
        exact syncTail_frame env c st d _ _ _ _ _ h

/-- C2 witness: a failed write leaves the record failed, the state and the
files untouched. -/
theorem C2_amended_witness :
    (sync_conversation envWrFail convNew stEmpty davEmpty).ok = false ∧
    (sync_conversation envWrFail convNew stEmpty davEmpty).state = stEmpty ∧
    (sync_conversation envWrFail convNew stEmpty davEmpty).dav.files =
      davEmpty.files :=
  C2_store_failure_amended envWrFail convNew stEmpty davEmpty (by decide)

/-! ## C5: filename uniqueness -/

/-- C5 counterexample: from an empty state, one fault-free cycle over three
records sharing the sanitized title `A` and the creation date leaves two
state entries with the same filename `A_01022024.md`: the date-suffix
fallback of `generate_filename` (lines 160-167) never re-checks uniqueness,
so the claimed invariant fails on a reachable state. -/
theorem C5_counterexample :
    ¬ UniqueFilenames
      (run_sync_cycle envN
        (some [mkConv "1" "A", mkConv "2" "A", mkConv "3" "A"])
        stEmpty davEmpty).1 := by decide

/-- C5 amended: deletion sweeps preserve filename uniqueness
unconditionally, and a per-record step preserves it whenever the filename
it targets (`syncTargetFilename`, the name the code allocates at lines
304-325) is not already used by another record's entry; the date-suffix
fallback can violate that freshness side condition, and then a duplicate
enters the state (see the counterexample). -/
theorem C5_uniqueness_amended :
    (∀ (env : Env) (c : Conversation) (st : SyncState) (d : Dav),
      UniqueKeys st → UniqueFilenames st →
      (∀ kv ∈ st.conversations, kv.1 ≠ c.id →
        kv.2.filename ≠ syncTargetFilename env c st) →
      UniqueFilenames (sync_conversation env c st d).state) ∧
    (∀ (f : Faults) (dir : String) (ids : List String) (st : SyncState)
        (d : Dav), UniqueFilenames st →
      UniqueFilenames (handle_deletions f dir ids st d).2.1) := by
  constructor
  · intro env c st d hk hl hfresh
    rcases sync_state_cases env c st d with hcase | hcase
    · rw [hcase]; exact hl
    · rw [hcase]
      simp only [UniqueFilenames, setEntry]
      exact filenames_alSet_nodup st.conversations c.id _ hk hl hfresh
  · intro f dir ids st d hl
    simp only [handle_deletions]
    exact deletionPass_filenames_nodup f dir _ 0 st d hl

/-- C5 witness: a fresh allocation preserves uniqueness. -/
theorem C5_amended_witness :
    UniqueFilenames (sync_conversation envN convNew stEmpty davEmpty).state :=
  C5_uniqueness_amended.1 envN convNew stEmpty davEmpty (by decide)
    (by decide) (by decide)

/-! ## C6: sweep ordering -/

/-- C6 counterexample: the operation trace lists store calls in execution
order, and a fault-free cycle over a fetch containing only the new record
`n`, from a state still holding the vanished id `gone`, produces the
sweep's remove FIRST and the per-record write second — `run_sync_cycle`
(lines 489-517) runs `handle_deletions` before the per-record loop,
refuting the claim that the sweep executes only after all fetched records
are processed. -/
theorem C6_counterexample :
    (run_sync_cycle envN (some [mkConv "n" "N"]) stGone
        davGoneFile).2.trace =
      [.remove "/c/gone.md" true, .write "/c/N.md" true] := by decide

/-- C6 amended: within every cycle whose fetch succeeded (and whose client
and output-directory setup did not fail), the deletion sweep executes
BEFORE the per-record processing: the cycle's trace decomposes as the
sweep's operations followed by the records' operations. -/
theorem C6_sweep_order_amended (env : Env) (convs : List Conversation)
    (st : SyncState) (d d1 : Dav)
    (h0 : env.faults.clientInitFails = false)
    (h1 : ensure_output_directory env.faults d env.outputDir = some d1) :
    ∃ sweepDelta recDelta,
      (run_sync_cycle env (some convs) st d).2.trace =
        d.trace ++ sweepDelta ++ recDelta ∧
      (handle_deletions env.faults env.outputDir (omiIdsOf convs) st
          d1).2.2.trace = d.trace ++ sweepDelta := by
  obtain ⟨ht, hf⟩ := ensure_some _ _ _ _ h1
  obtain ⟨sweep, hsweep⟩ := deletionPass_trace_ext env.faults env.outputDir
    ((st.conversations.map (fun kv => kv.1)).filter
      (fun i => ((omiIdsOf convs).contains i) = false)) 0 st d1
  have hhdtrace : (handle_deletions env.faults env.outputDir
      (omiIdsOf convs) st d1).2.2.trace = d.trace ++ sweep := by
    simp only [handle_deletions]
    rw [hsweep, ht]
  rcases hhd : handle_deletions env.faults env.outputDir (omiIdsOf convs)
      st d1 with ⟨n0, st1, d2⟩
  have hd2 : d2.trace = d.trace ++ sweep := by
    rw [← hhdtrace, hhd]
  rcases convs with _ | ⟨c0, rest⟩
  · refine ⟨sweep, [], ?_, hd2⟩
    simp only [run_sync_cycle, h0, Bool.false_eq_true, if_false, h1, hhd,
      List.isEmpty_nil, if_true]
    rw [hd2, List.append_nil]
  · obtain ⟨recD, hrecD⟩ := syncFold_trace_ext env (c0 :: rest) st1 d2
    refine ⟨sweep, recD, ?_, hd2⟩
    simp only [run_sync_cycle, h0, Bool.false_eq_true, if_false, h1, hhd,
      List.isEmpty_cons, if_false]
    rw [hrecD, hd2, List.append_assoc]

/-- C6 witness: the decomposition on the counterexample input. -/
theorem C6_amended_witness :
    ∃ sweepDelta recDelta,
      (run_sync_cycle envN (some [mkConv "n" "N"]) stGone
          davGoneFile).2.trace =
        davGoneFile.trace ++ sweepDelta ++ recDelta ∧
      (handle_deletions envN.faults envN.outputDir
          (omiIdsOf [mkConv "n" "N"]) stGone davGoneFile).2.2.trace =
        davGoneFile.trace ++ sweepDelta :=
  C6_sweep_order_amended envN [mkConv "n" "N"] stGone davGoneFile
    davGoneFile rfl (by decide)

end OmiSync
